import Mathlib

/-!
Verification of the problem-sheet skeleton compiler (src/compile.py).

The development shallowly embeds the script: the per-line processing loop of
the function main becomes a step function on an explicit run state, file
writes become updates of an association list from file names to contents, the
print and warnings.warn side effects become lists of Notice and Warning
values, and the written template text is carried verbatim as Lean strings
(literal braces are written with the escapes \x7b and \x7d).
-/

set_option maxRecDepth 8192

namespace Compile

/-- Python str.split treats a run of whitespace as one separator.  Lines come
from splitlines, so the relevant whitespace characters are space, tab,
carriage return; Char.isWhitespace covers exactly space, tab, CR, LF. -/
def nonspace (c : Char) : Bool := !c.isWhitespace

/-- Embedding of line.split(maxsplit=2) from src/compile.py line 146: at most
two splits, so at most three tokens, the third being the remainder of the
line with its leading whitespace removed.  A blank or all-whitespace line
yields the empty list. -/
def splitMax2 (s : String) : List String :=
  let l0 := s.data.dropWhile Char.isWhitespace
  if l0 = [] then []
  else
    let t1 := l0.takeWhile nonspace
    let r1 := (l0.dropWhile nonspace).dropWhile Char.isWhitespace
    if r1 = [] then [String.mk t1]
    else
      let t2 := r1.takeWhile nonspace
      let r2 := (r1.dropWhile nonspace).dropWhile Char.isWhitespace
      if r2 = [] then [String.mk t1, String.mk t2]
      else [String.mk t1, String.mk t2, String.mk r2]

/-- Python str(x) for the chapter and subchapter variables, which start as
None (src/compile.py lines 139-140) and are embedded as Option String:
format renders None as the four characters None. -/
def optStr : Option String → String
  | none => "None"
  | some s => s

/-- The subproblem-letters charset check of src/compile.py line 170:
set(subproblems).issubset(string.ascii_lowercase), i.e. every character is a
lowercase Latin letter (codepoints 97 to 122). -/
def validSub (subproblems : String) : Bool :=
  subproblems.data.all (fun c => 97 ≤ c.toNat && c.toNat ≤ 122)

/-- The messages passed to warnings.warn (src/compile.py lines 234-238),
kept as structured events: the degraded-run (panic mode) warning, and the
per-line failure warning carrying the original raw line text. -/
inductive Warning where
  | panicWarning
  | failureWarning (originalLine : String)
  deriving DecidableEq, Repr

/-- The print notices of src/compile.py (lines 123, 126, 180, 182), kept as
structured events carrying the problem file name where one is printed. -/
inductive Notice where
  | notOverwritingMain
  | writingMain
  | notOverwriting (name : String)
  | writing (name : String)
  deriving DecidableEq, Repr

/-- One call of main_file.write made inside the processing loop: a chapter
header (CHAPTER, line 153), a subchapter header (SUBCHAPTER, line 158), a
subfile reference (SUBFILE, lines 224-231) or the page break (line 232). -/
inductive MainWrite where
  | chapterW (num titl : String)
  | subchapterW (num titl : String)
  | subfileW (name : String)
  | pagebreakW
  deriving DecidableEq, Repr

/-- BEGIN_DOC of src/compile.py line 22. -/
def BEGIN_DOC : String := "\\begin\x7bdocument\x7d\n"

/-- END_DOC of src/compile.py line 23. -/
def END_DOC : String := "\\end\x7bdocument\x7d"

/-- PROBLEM_PREAMBLE of src/compile.py line 24. -/
def PROBLEM_PREAMBLE : String := "\\documentclass[../main.tex]\x7bsubfiles\x7d\n"

/-- CHAPTER of src/compile.py line 19, with format applied. -/
def CHAPTER (num titl : String) : String :=
  "\\chapter\x7b" ++ num ++ "\x7d\x7b" ++ titl ++ "\x7d\n"

/-- SUBCHAPTER of src/compile.py line 20, with format applied. -/
def SUBCHAPTER (num titl : String) : String :=
  "\t\\subchapter\x7b" ++ num ++ "\x7d\x7b" ++ titl ++ "\x7d\n"

/-- MAIN_CONTENT of src/compile.py lines 25-29, with format applied to the
title. -/
def MAIN_CONTENT (title : String) : String :=
  "\\title\x7b" ++ title ++ "\x7d\n\\date\x7b\x7d\n\\author\x7b\x7d\n\\maketitle\n"

/-- MAIN_PREAMBLE of src/compile.py lines 30-92, transcribed verbatim. -/
def MAIN_PREAMBLE : String :=
  "\\documentclass[11pt,a4paper]\x7barticle\x7d\n"
  ++ "\n"
  ++ "\\usepackage\x7benumerate\x7d\n"
  ++ "\\usepackage\x7bsubfiles\x7d\n"
  ++ "\n"
  ++ "\\usepackage\x7bmathtools\x7d\n"
  ++ "\\usepackage\x7bamssymb\x7d\n"
  ++ "\n"
  ++ "\\newcommand\x7b\\chapter\x7d[2]\x7b%\n"
  ++ "\\setcounter\x7bsection\x7d\x7b#1-1\x7d%\n"
  ++ "\\section\x7b#2\x7d%\n"
  ++ "\x7d\n"
  ++ "\n"
  ++ "\\newcommand\x7b\\subchapter\x7d[2]\x7b%\n"
  ++ "\\setcounter\x7bsubsection\x7d\x7b#1-1\x7d%\n"
  ++ "\\subsection\x7b#2\x7d%\n"
  ++ "\x7d\n"
  ++ "\n"
  ++ "\\newcommand\x7b\\problem\x7d[1]\x7b%\n"
  ++ "\\setcounter\x7bsubsubsection\x7d\x7b#1-1\x7d%\n"
  ++ "\\subsubsection\x7b\\hfill\x7d%\n"
  ++ "\x7d\n"
  ++ "\n"
  ++ "\\newcommand\x7b\\solution\x7d\x7b%\n"
  ++ "\\subsubsection*\x7bSolution\x7d%\n"
  ++ "\x7d\n"
  ++ "\n"
  ++ "% Misc math operators\n"
  ++ "\n"
  ++ "\\DeclarePairedDelimiter\x7b\\ceil\x7d\x7b\\lceil\x7d\x7b\\rceil\x7d\n"
  ++ "\\DeclarePairedDelimiter\x7b\\floor\x7d\x7b\\lfloor\x7d\x7b\\rfloor\x7d\n"
  ++ "\n"
  ++ "% Operators for predicate logic\n"
  ++ "\n"
  ++ "\\DeclareMathOperator\x7b\\T\x7d\x7b\\text\x7b\\textbf T\x7d\x7d\n"
  ++ "\\DeclareMathOperator\x7b\\F\x7d\x7b\\text\x7b\\textbf F\x7d\x7d\n"
  ++ "\\DeclareMathOperator\x7b\\lthen\x7d\x7b\\to\x7d\n"
  ++ "\\DeclareMathOperator\x7b\\limplies\x7d\x7b\\to\x7d\n"
  ++ "\\DeclareMathOperator\x7b\\lwhen\x7d\x7b\\gets\x7d\n"
  ++ "\\DeclareMathOperator\x7b\\lif\x7d\x7b\\gets\x7d\n"
  ++ "\\DeclareMathOperator\x7b\\liff\x7d\x7b\\leftrightarrow\x7d\n"
  ++ "\\DeclareMathOperator\x7b\\lxor\x7d\x7b\\oplus\x7d\n"
  ++ "\n"
  ++ "% Sets\n"
  ++ "\n"
  ++ "\\DeclarePairedDelimiter\x7b\\set\x7d\n"
  ++ "\t\x7b\\lbrace\x7d\n"
  ++ "\t\x7b\\rbrace\x7d\n"
  ++ "\\DeclareMathOperator\x7b\\ZZ\x7d\x7b\\mathbb\x7bZ\x7d\x7d\n"
  ++ "\\DeclareMathOperator\x7b\\SetOfIntegers\x7d\x7b\\ZZ\x7d\n"
  ++ "\\DeclareMathOperator\x7b\\ZZPos\x7d\x7b\\mathbb\x7bZ\x7d^+\x7d\n"
  ++ "\\DeclareMathOperator\x7b\\SetOfPositiveIntegers\x7d\x7b\\ZZPos\x7d\n"
  ++ "\\DeclareMathOperator\x7b\\NN\x7d\x7b\\mathbb\x7bN\x7d\x7d\n"
  ++ "\\DeclareMathOperator\x7b\\SetOfNaturalNumbers\x7d\x7b\\NN\x7d\n"
  ++ "\\DeclareMathOperator\x7b\\RR\x7d\x7b\\mathbb\x7bR\x7d\x7d\n"
  ++ "\\DeclareMathOperator\x7b\\SetOfRealNumbers\x7d\x7b\\RR\x7d\n"
  ++ "\\DeclareMathOperator\x7b\\RRPos\x7d\x7b\\mathbb\x7bR\x7d^+\x7d\n"
  ++ "\\DeclareMathOperator\x7b\\SetOfPositiveRealNumbers\x7d\x7b\\RRPos\x7d\n"
  ++ "\\DeclareMathOperator\x7b\\QQ\x7d\x7b\\mathbb\x7bQ\x7d\x7d\n"
  ++ "\\DeclareMathOperator\x7b\\SetOfRationalNumbers\x7d\x7b\\QQ\x7d\n"
  ++ "\\DeclareMathOperator\x7b\\CC\x7d\x7b\\mathbb\x7bC\x7d\x7d\n"
  ++ "\\DeclareMathOperator\x7b\\SetOfComplexNumbers\x7d\x7b\\CC\x7d\n"

/-- The opening line of the enumerate environment, src/compile.py line 191. -/
def enumBegin : String := "\\begin\x7benumerate\x7d[a)]\n"

/-- The closing line of the enumerate environment, src/compile.py line 202. -/
def enumEnd : String := "\\end\x7benumerate\x7d\n"

/-- One blank list item, src/compile.py line 200. -/
def itemLine : String := "\t\\item \n"

/-- The counter-reset instruction, src/compile.py lines 197-199. -/
def setcounterLine (n : Nat) : String :=
  "\t\\setcounter\x7benumi\x7d\x7b" ++ toString n ++ "\x7d\n"

/-- The per-letter loop of src/compile.py lines 192-201: for each character,
its zero-based alphabet offset (ord c - ord a, with ord a = 97) is compared
with the running counter subproblem_number; on a mismatch a counter-reset
line is emitted before the blank item; the counter always advances by one. -/
def subLoop : List Char → Nat → List String
  | [], _ => []
  | character :: rest, subproblem_number =>
    let next_number := character.toNat - 97
    (if next_number ≠ subproblem_number then [setcounterLine next_number] else [])
      ++ itemLine :: subLoop rest (subproblem_number + 1)

/-- problem_structure of src/compile.py lines 189-204: an enumerate skeleton
when the letters string is non-empty (Python truthiness of the string),
otherwise a single blank line. -/
def problemStructure (subproblems : String) : List String :=
  if subproblems = "" then ["\n"]
  else enumBegin :: subLoop subproblems.data 0 ++ [enumEnd]

/-- The canonical identifier joining chapter, subchapter and problem with
dots and concatenating the letters directly, the stem of the format string
at src/compile.py line 171 and line 21. -/
def problemIdentifier (chapter subchapter : Option String) (problem subproblems : String) : String :=
  optStr chapter ++ "." ++ optStr subchapter ++ "." ++ problem ++ subproblems

/-- problem_file_name of src/compile.py lines 171-176. -/
def problemFileName (chapter subchapter : Option String) (problem subproblems : String) : String :=
  problemIdentifier chapter subchapter problem subproblems ++ ".tex"

/-- The content list written into a problem file, src/compile.py lines
183-219: preamble, document opening, problem heading, the letters skeleton,
a solution heading, the identical skeleton again, and the document close. -/
def problemContent (problem subproblems : String) : String :=
  let ps := problemStructure subproblems
  String.join ([PROBLEM_PREAMBLE, "\n", BEGIN_DOC, "\n",
      "\\problem\x7b" ++ problem ++ "\x7d\n"]
    ++ ps ++ ["\n", "\\solution\n"] ++ ps ++ ["\n", END_DOC])

/-- Lookup of a file content by name in the problems directory, embedding
pathlib Path.exists and the directory state. -/
def findVal (n : String) : List (String × String) → Option String
  | [] => none
  | (m, c) :: rest => if n = m then some c else findVal n rest

/-- problem_file_path.exists() of src/compile.py line 178. -/
def existsFile (problems : List (String × String)) (n : String) : Bool :=
  (findVal n problems).isSome

/-- open(path, "w") followed by writing content: replaces the content of an
existing directory entry, otherwise appends a new entry. -/
def writeFile : List (String × String) → String → String → List (String × String)
  | [], n, c => [(n, c)]
  | (m, d) :: rest, n, c =>
    if n = m then (m, c) :: rest else (m, d) :: writeFile rest n c

/-- The mutable state of the processing loop of main: the hierarchy tracker
variables chapter, subchapter, problem, subproblems (src/compile.py lines
139-142), the panic_mode flag (line 136), the problems directory, the writes
made to the main file so far, and the notices and warnings surfaced. -/
structure RunState where
  chapter : Option String
  subchapter : Option String
  problem : Option String
  subproblems : Option String
  panicMode : Bool
  problems : List (String × String)
  mainWrites : List MainWrite
  notices : List Notice
  warnings : List Warning
  deriving DecidableEq, Repr

/-- The loop state at entry (src/compile.py lines 136-142), over a given
initial problems directory. -/
def initRS (problems : List (String × String)) : RunState :=
  { chapter := none, subchapter := none, problem := none, subproblems := none,
    panicMode := false, problems := problems, mainWrites := [], notices := [],
    warnings := [] }

/-- The outcome of classifying one line, mirroring the token dispatch of
src/compile.py lines 146-170 together with where inside the try block a
failure is raised: failNoMut is a failure raised before any tracker variable
is assigned (a token-count assert or the IndexError on a lone ###), while
failMut is the letters-charset assert of line 170, raised after problem and
subproblems have already been assigned. -/
inductive Classified where
  | blank
  | chapterOk (num titl : String)
  | subchapterOk (num titl : String)
  | problemOk (problem subproblems : String)
  | failNoMut
  | failMut (problem subproblems : String)
  deriving DecidableEq, Repr

/-- Token dispatch for one line, src/compile.py lines 146-170. -/
def classify (original_line : String) : Classified :=
  match splitMax2 original_line with
  | [] => .blank
  | [t] =>
    if t = "#" then .failNoMut
    else if t = "##" then .failNoMut
    else if t = "###" then .failNoMut
    else .problemOk t ""
  | [t, a] =>
    if t = "#" then .failNoMut
    else if t = "##" then .failNoMut
    else if t = "###" then .problemOk a ""
    else if validSub a then .problemOk t a
    else .failMut t a
  | [t, a, b] =>
    if t = "#" then .chapterOk a b
    else if t = "##" then .subchapterOk a b
    else if t = "###" then (if validSub b then .problemOk a b else .failMut a b)
    else .failNoMut
  | _ => .failNoMut

/-- The except handler of src/compile.py lines 234-238, verbatim: the panic
warning is only emitted, and panic_mode only assigned, when panic_mode is
already true; then the per-line failure warning is emitted. -/
def handleFailure (s : RunState) (original_line : String) : RunState :=
  let s1 :=
    if s.panicMode then
      { s with warnings := s.warnings ++ [Warning.panicWarning], panicMode := true }
    else s
  { s1 with warnings := s1.warnings ++ [Warning.failureWarning original_line] }

/-- The generation of one problem file and the root-document appends,
src/compile.py lines 171-232: compute the file name, decide the overwrite
branch, then unconditionally write the subfile reference and page break. -/
def emitProblem (overwrite : Bool) (s : RunState) (problem subproblems : String) : RunState :=
  let name := problemFileName s.chapter s.subchapter problem subproblems
  let s1 :=
    if existsFile s.problems name && !overwrite then
      { s with notices := s.notices ++ [Notice.notOverwriting name] }
    else
      { s with notices := s.notices ++ [Notice.writing name],
               problems := writeFile s.problems name (problemContent problem subproblems) }
  { s1 with mainWrites := s1.mainWrites ++ [MainWrite.subfileW name, MainWrite.pagebreakW] }

/-- Processing of one line of the specification stream, src/compile.py
lines 144-238. -/
def step (overwrite : Bool) (s : RunState) (original_line : String) : RunState :=
  match classify original_line with
  | .blank => s
  | .chapterOk num titl =>
    { s with chapter := some num,
             mainWrites := s.mainWrites ++ [MainWrite.chapterW num titl] }
  | .subchapterOk num titl =>
    { s with subchapter := some num,
             mainWrites := s.mainWrites ++ [MainWrite.subchapterW num titl] }
  | .problemOk p sub =>
    emitProblem overwrite { s with problem := some p, subproblems := some sub } p sub
  | .failNoMut => handleFailure s original_line
  | .failMut p sub =>
    handleFailure { s with problem := some p, subproblems := some sub } original_line

/-- The processing loop over the directive lines. -/
def processLines (overwrite : Bool) (s : RunState) : List String → RunState
  | [] => s
  | l :: ls => processLines overwrite (step overwrite s l) ls

/-- Rendering of one recorded main-file write back to the exact string the
script writes (the constants CHAPTER, SUBCHAPTER, SUBFILE and the page-break
literal of src/compile.py line 232). -/
def MainWrite.render : MainWrite → String
  | .chapterW num titl => CHAPTER num titl
  | .subchapterW num titl => SUBCHAPTER num titl
  | .subfileW name => "\t\t\\subfile\x7bproblems/" ++ name ++ "\x7d\n"
  | .pagebreakW => "\t\t\\pagebreak\n"

/-- The destination filesystem: the content of main.tex when it exists, and
the problems directory. -/
structure FS where
  main : Option String
  problems : List (String × String)
  deriving DecidableEq, Repr

/-- An empty destination directory. -/
def FS.empty : FS := ⟨none, []⟩

/-- The observable outcome of one run: the resulting filesystem, the notices
printed, and the warnings raised. -/
structure RunOutput where
  fs : FS
  notices : List Notice
  warnings : List Warning
  deriving DecidableEq, Repr

/-- The fixed part of main.tex written before the loop when the file is
(re)written, src/compile.py lines 128-133. -/
def mainHeader (title : String) : String :=
  MAIN_PREAMBLE ++ "\n" ++ BEGIN_DOC ++ "\n" ++ MAIN_CONTENT title ++ "\n"

/-- The function main of src/compile.py lines 95-241 on a resolved input:
the list of lines of the specification file and the destination filesystem.
The first line is the title (next on an empty stream is the fatal error, so
an empty input yields none).  When main.tex exists and overwrite is off, the
main file writes go to the null device and main.tex keeps its old content;
otherwise main.tex receives the header, the loop writes, and END_DOC. -/
def main (overwrite : Bool) (input : List String) (fs : FS) : Option RunOutput :=
  match input with
  | [] => none
  | title :: rest =>
    let mainNull := fs.main.isSome && !overwrite
    let fin := processLines overwrite (initRS fs.problems) rest
    let newMain : Option String :=
      if mainNull then fs.main
      else some (mainHeader title
        ++ String.join (fin.mainWrites.map MainWrite.render) ++ "\n" ++ END_DOC)
    some { fs := { main := newMain, problems := fin.problems },
           notices := (if mainNull then Notice.notOverwritingMain else Notice.writingMain)
             :: fin.notices,
           warnings := fin.warnings }

/-- A line on which the try block of the loop raises, i.e. a malformed
directive. -/
def isMalformed (l : String) : Bool :=
  match classify l with
  | .failNoMut => true
  | .failMut _ _ => true
  | _ => false

/-- A line recognized as a valid problem directive. -/
def isProblemLine (l : String) : Bool :=
  match classify l with
  | .problemOk _ _ => true
  | _ => false

/-- A recorded main-file write that is a subfile reference. -/
def isSubfileW : MainWrite → Bool
  | .subfileW _ => true
  | _ => false

/-- The problem file names a run generates, in directive order, tracking only
the evolution of the chapter and subchapter variables. -/
def namesAux (ch sch : Option String) : List String → List String
  | [] => []
  | l :: ls =>
    match classify l with
    | .chapterOk n _ => namesAux (some n) sch ls
    | .subchapterOk n _ => namesAux ch (some n) ls
    | .problemOk p sub => problemFileName ch sch p sub :: namesAux ch sch ls
    | _ => namesAux ch sch ls

/-- The problem file writes a run performs when overwrite is enabled: name
and content per valid problem directive, in directive order. -/
def writesList (ch sch : Option String) : List String → List (String × String)
  | [] => []
  | l :: ls =>
    match classify l with
    | .chapterOk n _ => writesList (some n) sch ls
    | .subchapterOk n _ => writesList ch (some n) ls
    | .problemOk p sub =>
      (problemFileName ch sch p sub, problemContent p sub) :: writesList ch sch ls
    | _ => writesList ch sch ls

/-- Replaying a list of writes onto a directory. -/
def fsApply : List (String × String) → List (String × String) → List (String × String)
  | l, [] => l
  | l, (n, c) :: ws => fsApply (writeFile l n c) ws

/-- The content of the last write to a given name in a write list, if any. -/
def lastWrite : List (String × String) → String → Option String
  | [], _ => none
  | (m, c) :: ws, n =>
    match lastWrite ws n with
    | some d => some d
    | none => if n = m then some c else none

/-- The names of the entries of a directory. -/
def keys (l : List (String × String)) : List String := l.map Prod.fst

/-- A concrete loop state in which chapter 3 and subchapter 1 are current,
as after the directives declaring them. -/
def rs31 : RunState := { initRS [] with chapter := some "3", subchapter := some "1" }

/-! ## Basic rewriting lemmas for the step function -/

theorem processLines_nil (ow : Bool) (s : RunState) : processLines ow s [] = s := rfl

theorem processLines_cons (ow : Bool) (s : RunState) (l : String) (ls : List String) :
    processLines ow s (l :: ls) = processLines ow (step ow s l) ls := rfl

theorem step_blank {l : String} (ow : Bool) (s : RunState) (h : classify l = .blank) :
    step ow s l = s := by
  unfold step; rw [h]

theorem step_chapterOk {l num titl : String} (ow : Bool) (s : RunState)
    (h : classify l = .chapterOk num titl) :
    step ow s l = { s with chapter := some num,
                           mainWrites := s.mainWrites ++ [MainWrite.chapterW num titl] } := by
  unfold step; rw [h]

theorem step_subchapterOk {l num titl : String} (ow : Bool) (s : RunState)
    (h : classify l = .subchapterOk num titl) :
    step ow s l = { s with subchapter := some num,
                           mainWrites := s.mainWrites ++ [MainWrite.subchapterW num titl] } := by
  unfold step; rw [h]

theorem step_problemOk {l p sub : String} (ow : Bool) (s : RunState)
    (h : classify l = .problemOk p sub) :
    step ow s l = emitProblem ow { s with problem := some p, subproblems := some sub } p sub := by
  unfold step; rw [h]

theorem step_failNoMut {l : String} (ow : Bool) (s : RunState) (h : classify l = .failNoMut) :
    step ow s l = handleFailure s l := by
  unfold step; rw [h]

theorem step_failMut {l p sub : String} (ow : Bool) (s : RunState)
    (h : classify l = .failMut p sub) :
    step ow s l = handleFailure { s with problem := some p, subproblems := some sub } l := by
  unfold step; rw [h]

theorem emitProblem_eq (ow : Bool) (s : RunState) (p sub : String) :
    emitProblem ow s p sub =
      if existsFile s.problems (problemFileName s.chapter s.subchapter p sub) && !ow then
        { s with notices := s.notices
                   ++ [Notice.notOverwriting (problemFileName s.chapter s.subchapter p sub)],
                 mainWrites := s.mainWrites
                   ++ [MainWrite.subfileW (problemFileName s.chapter s.subchapter p sub),
                       MainWrite.pagebreakW] }
      else
        { s with notices := s.notices
                   ++ [Notice.writing (problemFileName s.chapter s.subchapter p sub)],
                 problems := writeFile s.problems
                   (problemFileName s.chapter s.subchapter p sub) (problemContent p sub),
                 mainWrites := s.mainWrites
                   ++ [MainWrite.subfileW (problemFileName s.chapter s.subchapter p sub),
                       MainWrite.pagebreakW] } := by
  unfold emitProblem
  cases hex : existsFile s.problems (problemFileName s.chapter s.subchapter p sub) && !ow <;>
    simp only [hex, if_true, if_false, Bool.false_eq_true, Bool.true_eq_false, ite_true,
      ite_false, reduceIte]

theorem handleFailure_eq (s : RunState) (l : String) :
    handleFailure s l =
      { s with panicMode := s.panicMode,
               warnings := s.warnings
                 ++ (if s.panicMode then [Warning.panicWarning] else [])
                 ++ [Warning.failureWarning l] } := by
  unfold handleFailure
  by_cases hp : s.panicMode <;> simp [hp]

/-! ## The panic flag never changes, and the warnings stream -/

theorem step_panicMode (ow : Bool) (s : RunState) (l : String) :
    (step ow s l).panicMode = s.panicMode := by
  cases hc : classify l with
  | blank => rw [step_blank ow s hc]
  | chapterOk num titl => rw [step_chapterOk ow s hc]
  | subchapterOk num titl => rw [step_subchapterOk ow s hc]
  | problemOk p sub =>
    rw [step_problemOk ow s hc, emitProblem_eq]
    split <;> rfl
  | failNoMut => rw [step_failNoMut ow s hc, handleFailure_eq]
  | failMut p sub => rw [step_failMut ow s hc, handleFailure_eq]

theorem step_warnings {s : RunState} (ow : Bool) (l : String) (hp : s.panicMode = false) :
    (step ow s l).warnings =
      s.warnings ++ (if isMalformed l then [Warning.failureWarning l] else []) := by
  cases hc : classify l with
  | blank => rw [step_blank ow s hc]; simp [isMalformed, hc]
  | chapterOk num titl => rw [step_chapterOk ow s hc]; simp [isMalformed, hc]
  | subchapterOk num titl => rw [step_subchapterOk ow s hc]; simp [isMalformed, hc]
  | problemOk p sub =>
    rw [step_problemOk ow s hc, emitProblem_eq]
    split <;> simp [isMalformed, hc]
  | failNoMut =>
    rw [step_failNoMut ow s hc, handleFailure_eq]
    simp [isMalformed, hc, hp]
  | failMut p sub =>
    rw [step_failMut ow s hc, handleFailure_eq]
    simp [isMalformed, hc, hp]

theorem processLines_panicMode (ow : Bool) (s : RunState) (ls : List String) :
    (processLines ow s ls).panicMode = s.panicMode := by
  induction ls generalizing s with
  | nil => rfl
  | cons l ls ih => rw [processLines_cons, ih, step_panicMode]

theorem processLines_warnings {s : RunState} (ow : Bool) (ls : List String)
    (hp : s.panicMode = false) :
    (processLines ow s ls).warnings =
      s.warnings ++ (ls.filter isMalformed).map Warning.failureWarning := by
  induction ls generalizing s with
  | nil => simp [processLines_nil]
  | cons l ls ih =>
    rw [processLines_cons, ih ((step_panicMode ow s l).trans hp), step_warnings ow l hp]
    by_cases hm : isMalformed l <;> simp [List.filter_cons, hm]

/-! ## Association list lemmas for the problems directory -/

theorem findVal_writeFile (l : List (String × String)) (n c m : String) :
    findVal m (writeFile l n c) = if m = n then some c else findVal m l := by
  induction l with
  | nil => simp [writeFile, findVal]
  | cons e rest ih =>
    obtain ⟨k, d⟩ := e
    by_cases hnk : n = k
    · subst hnk
      simp only [writeFile, if_pos rfl, findVal]
      by_cases hmn : m = n <;> simp [hmn]
    · simp only [writeFile, if_neg hnk, findVal, ih]
      by_cases hmk : m = k
      · have hmn : ¬ m = n := fun hh => hnk (hh.symm.trans hmk)
        have hkn : ¬ k = n := fun hh => hnk hh.symm
        simp [hmk, hmn, hkn]
      · simp [hmk]

theorem existsFile_writeFile_self (l : List (String × String)) (n c : String) :
    existsFile (writeFile l n c) n = true := by
  simp [existsFile, findVal_writeFile]

theorem existsFile_writeFile_mono {l : List (String × String)} {m : String} (n c : String)
    (h : existsFile l m = true) : existsFile (writeFile l n c) m = true := by
  simp only [existsFile, findVal_writeFile]
  by_cases hmn : m = n <;> simp [hmn]
  exact h

theorem mem_keys_iff_existsFile (l : List (String × String)) (n : String) :
    n ∈ keys l ↔ existsFile l n = true := by
  induction l with
  | nil => simp [keys, existsFile, findVal]
  | cons e rest ih =>
    obtain ⟨k, d⟩ := e
    by_cases hnk : n = k <;> simp [keys, existsFile, findVal, hnk] at ih ⊢
    exact ih

theorem writeFile_of_not_exists {l : List (String × String)} {n : String} (c : String)
    (h : existsFile l n = false) : writeFile l n c = l ++ [(n, c)] := by
  induction l with
  | nil => simp [writeFile]
  | cons e rest ih =>
    obtain ⟨k, d⟩ := e
    simp only [existsFile, findVal] at h
    by_cases hnk : n = k
    · simp [hnk] at h
    · simp only [writeFile, if_neg hnk, List.cons_append, List.cons.injEq, true_and]
      exact ih (by simpa [existsFile, hnk] using h)

theorem keys_writeFile_of_exists {l : List (String × String)} {n : String} (c : String)
    (h : existsFile l n = true) : keys (writeFile l n c) = keys l := by
  induction l with
  | nil => simp [existsFile, findVal] at h
  | cons e rest ih =>
    obtain ⟨k, d⟩ := e
    by_cases hnk : n = k
    · simp [writeFile, hnk, keys]
    · simp only [existsFile, findVal, if_neg hnk] at h
      simp only [writeFile, if_neg hnk, keys, List.map_cons, List.cons.injEq, true_and]
      have := ih (by simpa [existsFile] using h)
      simpa [keys] using this

theorem keysNodup_writeFile {l : List (String × String)} (n c : String)
    (h : (keys l).Nodup) : (keys (writeFile l n c)).Nodup := by
  cases hex : existsFile l n with
  | true => rw [keys_writeFile_of_exists c hex]; exact h
  | false =>
    rw [writeFile_of_not_exists c hex]
    have hnot : n ∉ keys l := by
      rw [mem_keys_iff_existsFile, hex]; simp
    simp only [keys, List.map_append]
    refine List.Nodup.append h (by simp) ?_
    intro a ha hb
    simp only [List.map_cons, List.map_nil, List.mem_singleton] at hb
    exact hnot (hb ▸ ha)

theorem fsApply_nil (l : List (String × String)) : fsApply l [] = l := rfl

theorem fsApply_cons (l : List (String × String)) (n c : String) (ws : List (String × String)) :
    fsApply l ((n, c) :: ws) = fsApply (writeFile l n c) ws := rfl

theorem keysNodup_fsApply {l : List (String × String)} (ws : List (String × String))
    (h : (keys l).Nodup) : (keys (fsApply l ws)).Nodup := by
  induction ws generalizing l with
  | nil => exact h
  | cons w ws ih =>
    obtain ⟨n, c⟩ := w
    exact ih (keysNodup_writeFile n c h)

theorem findVal_fsApply_of_lastWrite_none (n : String) :
    ∀ (ws l : List (String × String)), lastWrite ws n = none →
      findVal n (fsApply l ws) = findVal n l := by
  intro ws
  induction ws with
  | nil => intro l _; rfl
  | cons w ws ih =>
    obtain ⟨m, d⟩ := w
    intro l h
    simp only [lastWrite] at h
    cases hlw : lastWrite ws n with
    | some e => simp [hlw] at h
    | none =>
      rw [hlw] at h
      have hnm : ¬ n = m := by
        intro hh; simp [hh] at h
      rw [fsApply_cons, ih _ hlw, findVal_writeFile, if_neg hnm]

theorem findVal_fsApply_of_lastWrite_some (n c : String) :
    ∀ (ws l : List (String × String)), lastWrite ws n = some c →
      findVal n (fsApply l ws) = some c := by
  intro ws
  induction ws with
  | nil => intro l h; simp [lastWrite] at h
  | cons w ws ih =>
    obtain ⟨m, d⟩ := w
    intro l h
    rw [fsApply_cons]
    simp only [lastWrite] at h
    cases hlw : lastWrite ws n with
    | some e =>
      rw [hlw] at h
      exact ih _ (hlw.trans h)
    | none =>
      rw [hlw] at h
      by_cases hnm : n = m
      · rw [findVal_fsApply_of_lastWrite_none n ws _ hlw, findVal_writeFile, if_pos hnm]
        simpa [hnm] using h
      · simp [hnm] at h

theorem lastWrite_isSome_of_mem {ws : List (String × String)} {n : String}
    (h : n ∈ keys ws) : (lastWrite ws n).isSome := by
  induction ws with
  | nil => simp [keys] at h
  | cons w ws ih =>
    obtain ⟨m, d⟩ := w
    simp only [keys, List.map_cons, List.mem_cons] at h
    simp only [lastWrite]
    cases hlw : lastWrite ws n with
    | some e => simp
    | none =>
      rcases h with h | h
      · simp [h]
      · have := ih (by simpa [keys] using h)
        rw [hlw] at this
        simp at this

theorem existsFile_fsApply_of_mem {ws : List (String × String)} {n : String}
    (h : n ∈ keys ws) (l : List (String × String)) :
    existsFile (fsApply l ws) n = true := by
  have hs := lastWrite_isSome_of_mem h
  cases hlw : lastWrite ws n with
  | none => rw [hlw] at hs; simp at hs
  | some c =>
    simp [existsFile, findVal_fsApply_of_lastWrite_some n c ws l hlw]

theorem map_pointUpd_id {l : List (String × String)} {n : String} (c : String)
    (h : n ∉ keys l) : l.map (fun e => if e.1 = n then (n, c) else e) = l := by
  induction l with
  | nil => rfl
  | cons e rest ih =>
    simp only [keys, List.map_cons, List.mem_cons, not_or] at h
    have he : ¬ e.1 = n := fun hh => h.1 hh.symm
    simp only [List.map_cons, if_neg he, List.cons.injEq, true_and]
    exact ih (by simpa [keys] using h.2)

theorem writeFile_eq_map {l : List (String × String)} {n : String} (c : String)
    (hnd : (keys l).Nodup) (hex : existsFile l n = true) :
    writeFile l n c = l.map (fun e => if e.1 = n then (n, c) else e) := by
  induction l with
  | nil => simp [existsFile, findVal] at hex
  | cons e rest ih =>
    obtain ⟨k, d⟩ := e
    simp only [keys, List.map_cons, List.nodup_cons] at hnd
    by_cases hnk : n = k
    · subst hnk
      simp only [writeFile, if_pos rfl, List.map_cons]
      rw [map_pointUpd_id c (by simpa [keys] using hnd.1)]
      simp
    · simp only [existsFile, findVal, if_neg hnk] at hex
      simp only [writeFile, if_neg hnk, List.map_cons,
        if_neg (show ¬ (k, d).1 = n from fun hh => hnk hh.symm), List.cons.injEq, true_and]
      exact ih (by simpa [keys] using hnd.2) (by simpa [existsFile] using hex)

theorem keys_map_pointUpd (l : List (String × String)) (n c : String) :
    keys (l.map (fun e => if e.1 = n then (n, c) else e)) = keys l := by
  induction l with
  | nil => rfl
  | cons e rest ih =>
    simp only [keys, List.map_cons]
    by_cases hk : e.1 = n
    · rw [if_pos hk]
      simp only [List.cons.injEq]
      exact ⟨hk.symm, by simpa [keys] using ih⟩
    · rw [if_neg hk]
      simp only [List.cons.injEq, true_and]
      simpa [keys] using ih

theorem map_id_of_forall {α : Type} {l : List α} {f : α → α}
    (h : ∀ e ∈ l, f e = e) : l.map f = l := by
  induction l with
  | nil => rfl
  | cons e rest ih =>
    simp only [List.map_cons, h e (by simp), List.cons.injEq, true_and]
    exact ih (fun x hx => h x (by simp [hx]))

theorem findVal_of_mem_nodup {l : List (String × String)} {n c : String}
    (hnd : (keys l).Nodup) (h : (n, c) ∈ l) : findVal n l = some c := by
  induction l with
  | nil => simp at h
  | cons e rest ih =>
    obtain ⟨k, d⟩ := e
    simp only [keys, List.map_cons, List.nodup_cons] at hnd
    rcases List.mem_cons.mp h with heq | hmem
    · rw [Prod.mk.injEq] at heq
      obtain ⟨rfl, rfl⟩ := heq
      simp [findVal]
    · have hnk : ¬ n = k := by
        rintro rfl
        exact hnd.1 (List.mem_map.mpr ⟨(n, c), hmem, rfl⟩)
      simp only [findVal, if_neg hnk]
      exact ih (by simpa [keys] using hnd.2) hmem

theorem fsApply_of_all_exists (ws : List (String × String)) :
    ∀ l : List (String × String), (keys l).Nodup → (∀ n ∈ keys ws, existsFile l n = true) →
    fsApply l ws = l.map (fun e => (e.1, ((lastWrite ws e.1).getD e.2))) := by
  induction ws with
  | nil =>
    intro l _ _
    simp only [fsApply_nil, lastWrite, Option.getD_none]
    exact (map_id_of_forall (fun e _ => rfl)).symm
  | cons w ws ih =>
    obtain ⟨n0, c0⟩ := w
    intro l hnd hex
    rw [fsApply_cons]
    have hex0 : existsFile l n0 = true := hex n0 (by simp [keys])
    rw [writeFile_eq_map c0 hnd hex0]
    have hnd2 : (keys (l.map (fun e => if e.1 = n0 then (n0, c0) else e))).Nodup := by
      rw [keys_map_pointUpd]; exact hnd
    have hex2 : ∀ n ∈ keys ws,
        existsFile (l.map (fun e => if e.1 = n0 then (n0, c0) else e)) n = true := by
      intro n hn
      rw [← mem_keys_iff_existsFile, keys_map_pointUpd, mem_keys_iff_existsFile]
      refine hex n ?_
      simp only [keys, List.map_cons, List.mem_cons]
      exact Or.inr (by simpa [keys] using hn)
    rw [ih _ hnd2 hex2, List.map_map]
    refine List.map_congr_left (fun e _ => ?_)
    obtain ⟨n, c⟩ := e
    by_cases hn : n = n0
    · subst hn
      simp only [Function.comp_apply, if_pos rfl, lastWrite]
      cases hlw : lastWrite ws n <;> simp [hlw]
    · simp only [Function.comp_apply, if_neg hn, lastWrite]
      cases hlw : lastWrite ws n <;> simp [hlw, hn]

theorem fsApply_idem {l : List (String × String)} (ws : List (String × String))
    (hnd : (keys l).Nodup) : fsApply (fsApply l ws) ws = fsApply l ws := by
  have hnd2 : (keys (fsApply l ws)).Nodup := keysNodup_fsApply ws hnd
  have hex : ∀ n ∈ keys ws, existsFile (fsApply l ws) n = true :=
    fun n hn => existsFile_fsApply_of_mem hn l
  rw [fsApply_of_all_exists ws (fsApply l ws) hnd2 hex]
  apply map_id_of_forall
  intro e he
  obtain ⟨n, c⟩ := e
  have hfv : findVal n (fsApply l ws) = some c := findVal_of_mem_nodup hnd2 he
  cases hlw : lastWrite ws n with
  | none => simp [hlw]
  | some d =>
    have hd := findVal_fsApply_of_lastWrite_some n d ws l hlw
    rw [hd] at hfv
    simp only [Option.some.injEq] at hfv
    simp [hlw, hfv]

/-! ## Overwrite-enabled runs: everything but the directory is independent of it -/

/-- All components of the run state except the problems directory. -/
def viewRS (s : RunState) :
    Option String × Option String × Option String × Option String × Bool ×
      List MainWrite × List Notice × List Warning :=
  (s.chapter, s.subchapter, s.problem, s.subproblems, s.panicMode,
   s.mainWrites, s.notices, s.warnings)

theorem viewRS_step {s1 s2 : RunState} (l : String) (h : viewRS s1 = viewRS s2) :
    viewRS (step true s1 l) = viewRS (step true s2 l) := by
  simp only [viewRS, Prod.mk.injEq] at h
  obtain ⟨h1, h2, h3, h4, h5, h6, h7, h8⟩ := h
  cases hc : classify l with
  | blank =>
    rw [step_blank _ _ hc, step_blank _ _ hc]
    simp [viewRS, h1, h2, h3, h4, h5, h6, h7, h8]
  | chapterOk num titl =>
    rw [step_chapterOk _ _ hc, step_chapterOk _ _ hc]
    simp [viewRS, h1, h2, h3, h4, h5, h6, h7, h8]
  | subchapterOk num titl =>
    rw [step_subchapterOk _ _ hc, step_subchapterOk _ _ hc]
    simp [viewRS, h1, h2, h3, h4, h5, h6, h7, h8]
  | problemOk p sub =>
    rw [step_problemOk _ _ hc, step_problemOk _ _ hc, emitProblem_eq, emitProblem_eq]
    simp only [Bool.not_true, Bool.and_false, Bool.false_eq_true, if_false]
    simp [viewRS, h1, h2, h3, h4, h5, h6, h7, h8]
  | failNoMut =>
    rw [step_failNoMut _ _ hc, step_failNoMut _ _ hc, handleFailure_eq, handleFailure_eq]
    simp [viewRS, h1, h2, h3, h4, h5, h6, h7, h8]
  | failMut p sub =>
    rw [step_failMut _ _ hc, step_failMut _ _ hc, handleFailure_eq, handleFailure_eq]
    simp [viewRS, h1, h2, h3, h4, h5, h6, h7, h8]

theorem viewRS_processLines {s1 s2 : RunState} (ls : List String) (h : viewRS s1 = viewRS s2) :
    viewRS (processLines true s1 ls) = viewRS (processLines true s2 ls) := by
  induction ls generalizing s1 s2 with
  | nil => exact h
  | cons l ls ih =>
    rw [processLines_cons, processLines_cons]
    exact ih (viewRS_step l h)

/-- With overwrite enabled, the final problems directory is the initial one
with the write list of the run replayed onto it. -/
theorem processLines_true_problems : ∀ (ls : List String) (s : RunState),
    (processLines true s ls).problems
      = fsApply s.problems (writesList s.chapter s.subchapter ls) := by
  intro ls
  induction ls with
  | nil => intro s; rfl
  | cons l ls ih =>
    intro s
    rw [processLines_cons]
    cases hc : classify l with
    | blank =>
      rw [step_blank _ _ hc]
      simp only [writesList, hc]
      exact ih s
    | chapterOk num titl =>
      have h2 := ih (step true s l)
      rw [step_chapterOk _ _ hc] at h2 ⊢
      simp only [writesList, hc]
      simpa using h2
    | subchapterOk num titl =>
      have h2 := ih (step true s l)
      rw [step_subchapterOk _ _ hc] at h2 ⊢
      simp only [writesList, hc]
      simpa using h2
    | problemOk p sub =>
      have h2 := ih (step true s l)
      rw [step_problemOk _ _ hc, emitProblem_eq, if_neg (by simp)] at h2 ⊢
      simp only [writesList, hc, fsApply_cons]
      simpa using h2
    | failNoMut =>
      have h2 := ih (step true s l)
      rw [step_failNoMut _ _ hc, handleFailure_eq] at h2 ⊢
      simp only [writesList, hc]
      simpa using h2
    | failMut p sub =>
      have h2 := ih (step true s l)
      rw [step_failMut _ _ hc, handleFailure_eq] at h2 ⊢
      simp only [writesList, hc]
      simpa using h2

/-! ## Files never disappear during a run -/

theorem existsFile_step_mono {s : RunState} {n : String} (ow : Bool) (l : String)
    (h : existsFile s.problems n = true) : existsFile (step ow s l).problems n = true := by
  cases hc : classify l with
  | blank => rwa [step_blank _ _ hc]
  | chapterOk num titl => rw [step_chapterOk _ _ hc]; exact h
  | subchapterOk num titl => rw [step_subchapterOk _ _ hc]; exact h
  | problemOk p sub =>
    rw [step_problemOk _ _ hc, emitProblem_eq]
    split
    · exact h
    · exact existsFile_writeFile_mono _ _ h
  | failNoMut => rw [step_failNoMut _ _ hc, handleFailure_eq]; exact h
  | failMut p sub => rw [step_failMut _ _ hc, handleFailure_eq]; exact h

theorem existsFile_processLines_mono : ∀ (ls : List String) (s : RunState) (ow : Bool)
    {n : String}, existsFile s.problems n = true →
    existsFile (processLines ow s ls).problems n = true := by
  intro ls
  induction ls with
  | nil => intro s ow n h; exact h
  | cons l ls ih =>
    intro s ow n h
    rw [processLines_cons]
    exact ih _ ow (existsFile_step_mono ow l h)

/-- Every problem file name the run generates exists in the final directory,
whether it was written by the run or already present and skipped. -/
theorem names_exist_after : ∀ (ls : List String) (s : RunState) (ow : Bool) (n : String),
    n ∈ namesAux s.chapter s.subchapter ls →
    existsFile (processLines ow s ls).problems n = true := by
  intro ls
  induction ls with
  | nil => intro s ow n h; simp [namesAux] at h
  | cons l ls ih =>
    intro s ow n h
    rw [processLines_cons]
    cases hc : classify l with
    | blank =>
      rw [step_blank _ _ hc]
      exact ih s ow n (by simpa [namesAux, hc] using h)
    | chapterOk num titl =>
      rw [step_chapterOk _ _ hc]
      refine ih _ ow n ?_
      simpa [namesAux, hc] using h
    | subchapterOk num titl =>
      rw [step_subchapterOk _ _ hc]
      refine ih _ ow n ?_
      simpa [namesAux, hc] using h
    | problemOk p sub =>
      simp only [namesAux, hc, List.mem_cons] at h
      rcases h with rfl | h
      · apply existsFile_processLines_mono
        rw [step_problemOk _ _ hc, emitProblem_eq]
        split
        · next hcond =>
          exact (Bool.and_eq_true _ _ |>.mp hcond).1
        · exact existsFile_writeFile_self _ _ _
      · refine ih _ ow n ?_
        rw [step_problemOk _ _ hc, emitProblem_eq]
        split <;> simpa [namesAux] using h
    | failNoMut =>
      rw [step_failNoMut _ _ hc, handleFailure_eq]
      exact ih _ ow n (by simpa [namesAux, hc] using h)
    | failMut p sub =>
      rw [step_failMut _ _ hc, handleFailure_eq]
      exact ih _ ow n (by simpa [namesAux, hc] using h)

/-! ## A run over an already fully generated directory only skips -/

theorem processLines_skip_problems : ∀ (ls : List String) (s : RunState),
    (∀ n ∈ namesAux s.chapter s.subchapter ls, existsFile s.problems n = true) →
    (processLines false s ls).problems = s.problems := by
  intro ls
  induction ls with
  | nil => intro s _; rfl
  | cons l ls ih =>
    intro s hall
    rw [processLines_cons]
    cases hc : classify l with
    | blank =>
      rw [step_blank _ _ hc]
      exact ih s (fun n hn => hall n (by simpa [namesAux, hc] using hn))
    | chapterOk num titl =>
      have h2 := ih (step true s l)
      rw [step_chapterOk true _ hc] at h2
      rw [step_chapterOk false _ hc]
      exact h2 (fun n hn => hall n (by simpa [namesAux, hc] using hn))
    | subchapterOk num titl =>
      have h2 := ih (step true s l)
      rw [step_subchapterOk true _ hc] at h2
      rw [step_subchapterOk false _ hc]
      exact h2 (fun n hn => hall n (by simpa [namesAux, hc] using hn))
    | problemOk p sub =>
      have hex : existsFile s.problems (problemFileName s.chapter s.subchapter p sub) = true :=
        hall _ (by simp [namesAux, hc])
      rw [step_problemOk false _ hc, emitProblem_eq, if_pos (by simpa using hex)]
      have h2 := ih (step false s l)
      rw [step_problemOk false _ hc, emitProblem_eq, if_pos (by simpa using hex)] at h2
      refine h2 (fun n hn => ?_)
      refine hall n ?_
      simp only [namesAux, hc, List.mem_cons]
      exact Or.inr (by simpa using hn)
    | failNoMut =>
      have h2 := ih (step false s l)
      rw [step_failNoMut false _ hc, handleFailure_eq] at h2
      rw [step_failNoMut false _ hc, handleFailure_eq]
      exact h2 (fun n hn => hall n (by simpa [namesAux, hc] using hn))
    | failMut p sub =>
      have h2 := ih (step false s l)
      rw [step_failMut false _ hc, handleFailure_eq] at h2
      rw [step_failMut false _ hc, handleFailure_eq]
      exact h2 (fun n hn => hall n (by simpa [namesAux, hc] using hn))

theorem processLines_skip_notices : ∀ (ls : List String) (s : RunState),
    (∀ n ∈ namesAux s.chapter s.subchapter ls, existsFile s.problems n = true) →
    (processLines false s ls).notices =
      s.notices ++ (namesAux s.chapter s.subchapter ls).map Notice.notOverwriting := by
  intro ls
  induction ls with
  | nil => intro s _; simp [processLines_nil, namesAux]
  | cons l ls ih =>
    intro s hall
    rw [processLines_cons]
    cases hc : classify l with
    | blank =>
      rw [step_blank _ _ hc]
      simp only [namesAux, hc]
      exact ih s (fun n hn => hall n (by simpa [namesAux, hc] using hn))
    | chapterOk num titl =>
      have h2 := ih (step false s l)
      rw [step_chapterOk false _ hc] at h2
      rw [step_chapterOk false _ hc]
      simp only [namesAux, hc]
      simpa using h2 (fun n hn => hall n (by simpa [namesAux, hc] using hn))
    | subchapterOk num titl =>
      have h2 := ih (step false s l)
      rw [step_subchapterOk false _ hc] at h2
      rw [step_subchapterOk false _ hc]
      simp only [namesAux, hc]
      simpa using h2 (fun n hn => hall n (by simpa [namesAux, hc] using hn))
    | problemOk p sub =>
      have hex : existsFile s.problems (problemFileName s.chapter s.subchapter p sub) = true :=
        hall _ (by simp [namesAux, hc])
      rw [step_problemOk false _ hc, emitProblem_eq, if_pos (by simpa using hex)]
      have h2 := ih (step false s l)
      rw [step_problemOk false _ hc, emitProblem_eq, if_pos (by simpa using hex)] at h2
      have h3 := h2 (fun n hn => hall n (by
        simp only [namesAux, hc, List.mem_cons]
        exact Or.inr (by simpa using hn)))
      simp only [namesAux, hc, List.map_cons]
      simp only at h3
      rw [h3]
      simp
    | failNoMut =>
      have h2 := ih (step false s l)
      rw [step_failNoMut false _ hc, handleFailure_eq] at h2
      rw [step_failNoMut false _ hc, handleFailure_eq]
      simp only [namesAux, hc]
      simpa using h2 (fun n hn => hall n (by simpa [namesAux, hc] using hn))
    | failMut p sub =>
      have h2 := ih (step false s l)
      rw [step_failMut false _ hc, handleFailure_eq] at h2
      rw [step_failMut false _ hc, handleFailure_eq]
      simp only [namesAux, hc]
      simpa using h2 (fun n hn => hall n (by simpa [namesAux, hc] using hn))

/-! ## Counting references and fresh problem files -/

theorem processLines_subfile_count : ∀ (ls : List String) (s : RunState) (ow : Bool),
    ((processLines ow s ls).mainWrites.countP isSubfileW) =
      s.mainWrites.countP isSubfileW + ls.countP isProblemLine := by
  intro ls
  induction ls with
  | nil => intro s ow; simp [processLines_nil, List.countP_nil]
  | cons l ls ih =>
    intro s ow
    rw [processLines_cons, List.countP_cons, ih (step ow s l) ow]
    cases hc : classify l with
    | blank =>
      rw [step_blank _ _ hc]
      simp [isProblemLine, hc]
    | chapterOk num titl =>
      rw [step_chapterOk _ _ hc]
      simp [isProblemLine, hc, List.countP_append, List.countP_cons, isSubfileW]
    | subchapterOk num titl =>
      rw [step_subchapterOk _ _ hc]
      simp [isProblemLine, hc, List.countP_append, List.countP_cons, isSubfileW]
    | problemOk p sub =>
      rw [step_problemOk _ _ hc, emitProblem_eq]
      split <;>
        simp [isProblemLine, hc, List.countP_append, List.countP_cons, isSubfileW] <;>
        omega
    | failNoMut =>
      rw [step_failNoMut _ _ hc, handleFailure_eq]
      simp [isProblemLine, hc]
    | failMut p sub =>
      rw [step_failMut _ _ hc, handleFailure_eq]
      simp [isProblemLine, hc]

theorem existsFile_snoc (l : List (String × String)) (n c m : String) :
    existsFile (l ++ [(n, c)]) m = (existsFile l m || decide (m = n)) := by
  induction l with
  | nil =>
    simp only [List.nil_append, existsFile, findVal]
    by_cases hmn : m = n <;> simp [hmn, findVal]
  | cons e rest ih =>
    obtain ⟨k, d⟩ := e
    simp only [List.cons_append, existsFile, findVal]
    by_cases hmk : m = k
    · simp [hmk]
    · simp only [if_neg hmk]
      exact ih

/-- When every generated name is fresh and the names are distinct, each valid
problem directive appends exactly one new file to the directory. -/
theorem processLines_fresh_length : ∀ (ls : List String) (s : RunState) (ow : Bool),
    (namesAux s.chapter s.subchapter ls).Nodup →
    (∀ n ∈ namesAux s.chapter s.subchapter ls, existsFile s.problems n = false) →
    (processLines ow s ls).problems.length = s.problems.length + ls.countP isProblemLine := by
  intro ls
  induction ls with
  | nil => intro s ow _ _; simp [processLines_nil, List.countP_nil]
  | cons l ls ih =>
    intro s ow hnd hfresh
    rw [processLines_cons, List.countP_cons]
    cases hc : classify l with
    | blank =>
      rw [step_blank _ _ hc]
      rw [ih s ow (by simpa [namesAux, hc] using hnd)
        (fun n hn => hfresh n (by simpa [namesAux, hc] using hn))]
      simp [isProblemLine, hc]
    | chapterOk num titl =>
      have h2 := ih (step ow s l) ow
      rw [step_chapterOk ow _ hc] at h2
      rw [step_chapterOk ow _ hc]
      rw [h2 (by simpa [namesAux, hc] using hnd)
        (fun n hn => hfresh n (by simpa [namesAux, hc] using hn))]
      simp [isProblemLine, hc]
    | subchapterOk num titl =>
      have h2 := ih (step ow s l) ow
      rw [step_subchapterOk ow _ hc] at h2
      rw [step_subchapterOk ow _ hc]
      rw [h2 (by simpa [namesAux, hc] using hnd)
        (fun n hn => hfresh n (by simpa [namesAux, hc] using hn))]
      simp [isProblemLine, hc]
    | problemOk p sub =>
      have hfr : existsFile s.problems (problemFileName s.chapter s.subchapter p sub) = false :=
        hfresh _ (by simp [namesAux, hc])
      have hpair : problemFileName s.chapter s.subchapter p sub
          ∉ namesAux s.chapter s.subchapter ls
          ∧ (namesAux s.chapter s.subchapter ls).Nodup := by
        simpa [namesAux, hc, List.nodup_cons] using hnd
      have hnd2 := hpair.2
      have hhead := hpair.1
      rw [step_problemOk ow _ hc, emitProblem_eq, if_neg (by simp [hfr])]
      have h2 := ih (step ow s l) ow
      rw [step_problemOk ow _ hc, emitProblem_eq, if_neg (by simp [hfr])] at h2
      simp only at h2 ⊢
      rw [writeFile_of_not_exists _ hfr] at h2 ⊢
      rw [h2 (by simpa [namesAux] using hnd2) ?_]
      · simp only [List.length_append, List.length_cons, List.length_nil]
        simp [isProblemLine, hc]
        omega
      · intro n hn
        have hn2 : n ∈ namesAux s.chapter s.subchapter ls := by simpa [namesAux] using hn
        rw [existsFile_snoc]
        have hne : ¬ n = problemFileName s.chapter s.subchapter p sub := by
          intro hh
          exact hhead (hh ▸ hn2)
        simp [hfresh n (by simp [namesAux, hc, hn2]), hne]
    | failNoMut =>
      have h2 := ih (step ow s l) ow
      rw [step_failNoMut ow _ hc, handleFailure_eq] at h2
      rw [step_failNoMut ow _ hc, handleFailure_eq]
      rw [h2 (by simpa [namesAux, hc] using hnd)
        (fun n hn => hfresh n (by simpa [namesAux, hc] using hn))]
      simp [isProblemLine, hc]
    | failMut p sub =>
      have h2 := ih (step ow s l) ow
      rw [step_failMut ow _ hc, handleFailure_eq] at h2
      rw [step_failMut ow _ hc, handleFailure_eq]
      rw [h2 (by simpa [namesAux, hc] using hnd)
        (fun n hn => hfresh n (by simpa [namesAux, hc] using hn))]
      simp [isProblemLine, hc]

/-- Unfolding of main on a non-empty input. -/
theorem main_eq_cons (ow : Bool) (title : String) (rest : List String) (fs : FS) :
    main ow (title :: rest) fs =
      some { fs := { main := if fs.main.isSome && !ow then fs.main
                     else some (mainHeader title ++ String.join
                       ((processLines ow (initRS fs.problems) rest).mainWrites.map
                         MainWrite.render) ++ "\n" ++ END_DOC),
                     problems := (processLines ow (initRS fs.problems) rest).problems },
             notices := (if fs.main.isSome && !ow then Notice.notOverwritingMain
                         else Notice.writingMain)
               :: (processLines ow (initRS fs.problems) rest).notices,
             warnings := (processLines ow (initRS fs.problems) rest).warnings } := rfl

/-! ## Tokenization of whitespace-free tokens -/

theorem takeWhile_of_all {p : Char → Bool} : ∀ (l : List Char),
    (∀ c ∈ l, p c = true) → l.takeWhile p = l := by
  intro l
  induction l with
  | nil => intro _; rfl
  | cons c cs ih =>
    intro h
    rw [List.takeWhile_cons, if_pos (h c (by simp))]
    rw [ih (fun d hd => h d (by simp [hd]))]

theorem dropWhile_of_all {p : Char → Bool} : ∀ (l : List Char),
    (∀ c ∈ l, p c = true) → l.dropWhile p = [] := by
  intro l
  induction l with
  | nil => intro _; rfl
  | cons c cs ih =>
    intro h
    rw [List.dropWhile_cons, if_pos (h c (by simp))]
    exact ih (fun d hd => h d (by simp [hd]))

theorem takeWhile_append_stop {p : Char → Bool} : ∀ (l : List Char) (x : Char) (r : List Char),
    (∀ c ∈ l, p c = true) → p x = false → (l ++ x :: r).takeWhile p = l := by
  intro l
  induction l with
  | nil =>
    intro x r _ hx
    simp [List.takeWhile_cons, hx]
  | cons c cs ih =>
    intro x r h hx
    rw [List.cons_append, List.takeWhile_cons, if_pos (h c (by simp))]
    rw [ih x r (fun d hd => h d (by simp [hd])) hx]

theorem dropWhile_append_stop {p : Char → Bool} : ∀ (l : List Char) (x : Char) (r : List Char),
    (∀ c ∈ l, p c = true) → p x = false → (l ++ x :: r).dropWhile p = x :: r := by
  intro l
  induction l with
  | nil =>
    intro x r _ hx
    simp [List.dropWhile_cons, hx]
  | cons c cs ih =>
    intro x r h hx
    rw [List.cons_append, List.dropWhile_cons, if_pos (h c (by simp))]
    exact ih x r (fun d hd => h d (by simp [hd])) hx

theorem data_append (a b : String) : (a ++ b).data = a.data ++ b.data := rfl

/-- A single whitespace-free token is returned whole. -/
theorem splitMax2_single (t : String) (ht1 : t.data ≠ [])
    (ht2 : ∀ c ∈ t.data, c.isWhitespace = false) : splitMax2 t = [t] := by
  have hns : ∀ c ∈ t.data, nonspace c = true := fun c hc => by
    simp [nonspace, ht2 c hc]
  have hl0 : t.data.dropWhile Char.isWhitespace = t.data := by
    cases hd : t.data with
    | nil => rfl
    | cons c cs =>
      rw [List.dropWhile_cons, if_neg (by simp [ht2 c (by rw [hd]; simp)])]
  unfold splitMax2
  rw [hl0, if_neg ht1, takeWhile_of_all _ hns, dropWhile_of_all _ hns]
  simp

theorem dropWhile_ws_space (r : List Char) :
    List.dropWhile Char.isWhitespace (' ' :: r) = List.dropWhile Char.isWhitespace r := by
  rw [List.dropWhile_cons, if_pos (show Char.isWhitespace ' ' = true from by decide)]

theorem takeWhile_nonspace_hash3 (r : List Char) :
    List.takeWhile nonspace ('#' :: '#' :: '#' :: ' ' :: r) = ['#', '#', '#'] := by
  have h1 : nonspace '#' = true := by decide
  have h2 : ¬ (nonspace ' ' = true) := by decide
  rw [List.takeWhile_cons, if_pos h1, List.takeWhile_cons, if_pos h1,
    List.takeWhile_cons, if_pos h1, List.takeWhile_cons, if_neg h2]

theorem dropWhile_nonspace_hash3 (r : List Char) :
    List.dropWhile nonspace ('#' :: '#' :: '#' :: ' ' :: r) = ' ' :: r := by
  have h1 : nonspace '#' = true := by decide
  have h2 : ¬ (nonspace ' ' = true) := by decide
  rw [List.dropWhile_cons, if_pos h1, List.dropWhile_cons, if_pos h1,
    List.dropWhile_cons, if_pos h1, List.dropWhile_cons, if_neg h2]

theorem dropWhile_ws_hash3 (r : List Char) :
    List.dropWhile Char.isWhitespace ('#' :: '#' :: '#' :: ' ' :: r)
      = '#' :: '#' :: '#' :: ' ' :: r := by
  rw [List.dropWhile_cons, if_neg (show ¬ (Char.isWhitespace '#' = true) from by decide)]

/-- Two whitespace-free tokens separated by one space. -/
theorem splitMax2_pair (t s : String) (ht1 : t.data ≠ [])
    (ht2 : ∀ c ∈ t.data, c.isWhitespace = false) (hs1 : s.data ≠ [])
    (hs2 : ∀ c ∈ s.data, c.isWhitespace = false) :
    splitMax2 (t ++ " " ++ s) = [t, s] := by
  have htns : ∀ c ∈ t.data, nonspace c = true := fun c hc => by simp [nonspace, ht2 c hc]
  have hsns : ∀ c ∈ s.data, nonspace c = true := fun c hc => by simp [nonspace, hs2 c hc]
  have hd : (t ++ " " ++ s).data = t.data ++ ' ' :: s.data := by
    rw [data_append, data_append]
    simp
  have hsdrop : s.data.dropWhile Char.isWhitespace = s.data := by
    cases hds : s.data with
    | nil => rfl
    | cons c cs =>
      rw [List.dropWhile_cons, if_neg (by simp [hs2 c (by rw [hds]; simp)])]
  have h1 : (t.data ++ ' ' :: s.data).dropWhile Char.isWhitespace
      = t.data ++ ' ' :: s.data := by
    cases hdt : t.data with
    | nil => exact absurd hdt ht1
    | cons c cs =>
      rw [List.cons_append, List.dropWhile_cons,
        if_neg (by simp [ht2 c (by rw [hdt]; simp)])]
  unfold splitMax2
  rw [hd, h1, if_neg (by simp),
    takeWhile_append_stop t.data ' ' s.data htns (by decide),
    dropWhile_append_stop t.data ' ' s.data htns (by decide),
    dropWhile_ws_space, hsdrop, if_neg hs1,
    takeWhile_of_all _ hsns, dropWhile_of_all _ hsns]
  simp

/-- The explicit marker followed by one whitespace-free token. -/
theorem splitMax2_hash3_one (t : String) (ht1 : t.data ≠ [])
    (ht2 : ∀ c ∈ t.data, c.isWhitespace = false) :
    splitMax2 ("### " ++ t) = ["###", t] := by
  have htns : ∀ c ∈ t.data, nonspace c = true := fun c hc => by simp [nonspace, ht2 c hc]
  have hd : ("### " ++ t).data = '#' :: '#' :: '#' :: ' ' :: t.data := rfl
  have htdrop : t.data.dropWhile Char.isWhitespace = t.data := by
    cases hdt : t.data with
    | nil => rfl
    | cons c cs =>
      rw [List.dropWhile_cons, if_neg (by simp [ht2 c (by rw [hdt]; simp)])]
  unfold splitMax2
  rw [hd, dropWhile_ws_hash3, if_neg (by simp), takeWhile_nonspace_hash3,
    dropWhile_nonspace_hash3, dropWhile_ws_space, htdrop, if_neg ht1,
    takeWhile_of_all _ htns, dropWhile_of_all _ htns]
  have hmk : String.mk ['#', '#', '#'] = "###" := by decide
  simp [hmk]

/-- The explicit marker followed by two whitespace-free tokens. -/
theorem splitMax2_hash3_two (t s : String) (ht1 : t.data ≠ [])
    (ht2 : ∀ c ∈ t.data, c.isWhitespace = false) (hs1 : s.data ≠ [])
    (hs2 : ∀ c ∈ s.data, c.isWhitespace = false) :
    splitMax2 ("### " ++ t ++ " " ++ s) = ["###", t, s] := by
  have htns : ∀ c ∈ t.data, nonspace c = true := fun c hc => by simp [nonspace, ht2 c hc]
  have hsns : ∀ c ∈ s.data, nonspace c = true := fun c hc => by simp [nonspace, hs2 c hc]
  have hd : ("### " ++ t ++ " " ++ s).data
      = '#' :: '#' :: '#' :: ' ' :: (t.data ++ ' ' :: s.data) := by
    rw [data_append, data_append, data_append]
    simp
  have hsdrop : s.data.dropWhile Char.isWhitespace = s.data := by
    cases hds : s.data with
    | nil => rfl
    | cons c cs =>
      rw [List.dropWhile_cons, if_neg (by simp [hs2 c (by rw [hds]; simp)])]
  have h1 : (t.data ++ ' ' :: s.data).dropWhile Char.isWhitespace
      = t.data ++ ' ' :: s.data := by
    cases hdt : t.data with
    | nil => exact absurd hdt ht1
    | cons c cs =>
      rw [List.cons_append, List.dropWhile_cons,
        if_neg (by simp [ht2 c (by rw [hdt]; simp)])]
  unfold splitMax2
  rw [hd, dropWhile_ws_hash3, if_neg (by simp), takeWhile_nonspace_hash3,
    dropWhile_nonspace_hash3, dropWhile_ws_space, h1, if_neg (by simp),
    takeWhile_append_stop t.data ' ' s.data htns (by decide),
    dropWhile_append_stop t.data ' ' s.data htns (by decide),
    dropWhile_ws_space, hsdrop, if_neg hs1]

/-- A character that is a lowercase Latin letter is not whitespace. -/
theorem isWhitespace_false_of_lower {c : Char} (h : 97 ≤ c.toNat) :
    c.isWhitespace = false := by
  cases hw : c.isWhitespace
  · rfl
  · exfalso
    unfold Char.isWhitespace at hw
    simp only [Bool.or_eq_true, decide_eq_true_eq] at hw
    rcases hw with ((h1 | h1) | h1) | h1 <;> subst h1 <;> exact absurd h (by decide)

theorem validSub_nonspace {s : String} (h : validSub s = true) :
    ∀ c ∈ s.data, c.isWhitespace = false := by
  intro c hc
  have := (List.all_eq_true.mp h) c hc
  simp only [Bool.and_eq_true, decide_eq_true_eq] at this
  exact isWhitespace_false_of_lower this.1

/-! ## Claims -/

/-- C1: the claim says the degraded-run warning is raised exactly once, at
the second malformed-directive error.  In the code the assignment
panic_mode = True sits inside the branch guarded by panic_mode being already
true, so the flag can never leave its initial False and the warning is never
raised: the first conjunct proves no run ever emits it, the second evaluates
the loop on a stream with two malformed directives and shows only the two
per-line failure warnings appear. -/
theorem C1_degraded_warning_never_raised :
    (∀ (ow : Bool) (ps : List (String × String)) (ls : List String),
      Warning.panicWarning ∉ (processLines ow (initRS ps) ls).warnings)
    ∧ (main false ["T", "# 1", "# 2"] FS.empty).map RunOutput.warnings
        = some [Warning.failureWarning "# 1", Warning.failureWarning "# 2"] := by
  constructor
  · intro ow ps ls h
    rw [processLines_warnings ow ls rfl] at h
    simp only [initRS, List.nil_append, List.mem_map] at h
    obtain ⟨a, _, ha⟩ := h
    exact Warning.noConfusion ha
  · rfl

/-- C2 counterexample: the bare problem directive 1 a1 fails the
letters-charset validation (the digit), is skipped (no file write, no root
append, a failure warning naming the line), yet the problem and
subproblem-letters tracker fields have been updated from none to the tokens
of the failed directive, so the tracker state is not exactly what it was
before. -/
theorem C2_counterexample :
    (initRS []).problem = none ∧ (initRS []).subproblems = none
    ∧ (step false (initRS []) "1 a1").problem = some "1"
    ∧ (step false (initRS []) "1 a1").subproblems = some "a1"
    ∧ (step false (initRS []) "1 a1").warnings = [Warning.failureWarning "1 a1"]
    ∧ (step false (initRS []) "1 a1").problems = []
    ∧ (step false (initRS []) "1 a1").mainWrites = [] :=
  ⟨rfl, rfl, rfl, rfl, rfl, rfl, rfl⟩

/-- C2 (amended): every directive that fails validation is skipped (no file
write, no root-document append, no notice), a warning naming the original
raw line is surfaced, and the chapter and subchapter fields are unchanged;
wrong-token-count failures also leave problem and subproblem-letters
unchanged, but a letters-charset failure leaves those two fields set to the
tokens of the failed directive. -/
theorem C2_failed_directive_recovery (ow : Bool) (s : RunState) (l : String)
    (h : isMalformed l = true) (hp : s.panicMode = false) :
    (step ow s l).problems = s.problems
    ∧ (step ow s l).mainWrites = s.mainWrites
    ∧ (step ow s l).notices = s.notices
    ∧ (step ow s l).warnings = s.warnings ++ [Warning.failureWarning l]
    ∧ (step ow s l).chapter = s.chapter
    ∧ (step ow s l).subchapter = s.subchapter
    ∧ (classify l = .failNoMut →
        (step ow s l).problem = s.problem ∧ (step ow s l).subproblems = s.subproblems)
    ∧ (∀ p sub, classify l = .failMut p sub →
        (step ow s l).problem = some p ∧ (step ow s l).subproblems = some sub) := by
  unfold isMalformed at h
  cases hc : classify l with
  | blank => rw [hc] at h; simp at h
  | chapterOk num titl => rw [hc] at h; simp at h
  | subchapterOk num titl => rw [hc] at h; simp at h
  | problemOk p sub => rw [hc] at h; simp at h
  | failNoMut =>
    rw [step_failNoMut ow s hc, handleFailure_eq]
    exact ⟨rfl, rfl, rfl, by simp [hp], rfl, rfl, fun _ => ⟨rfl, rfl⟩,
      fun p sub hps => Classified.noConfusion hps⟩
  | failMut p sub =>
    rw [step_failMut ow s hc, handleFailure_eq]
    refine ⟨rfl, rfl, rfl, by simp [hp], rfl, rfl,
      fun hf => Classified.noConfusion hf, fun q qsub hps => ?_⟩
    have hinj : p = q ∧ sub = qsub := by simpa using hps
    obtain ⟨rfl, rfl⟩ := hinj
    exact ⟨rfl, rfl⟩

theorem C2_failed_directive_recovery_witness :
    (step false (initRS []) "1 a1").warnings
      = (initRS []).warnings ++ [Warning.failureWarning "1 a1"] :=
  (C2_failed_directive_recovery false (initRS []) "1 a1" (by decide) rfl).2.2.2.1

/-- C3: for every valid problem directive the subfile reference followed by
the page break is appended to the root document, in the skip branch and in
the write branch alike; only the problem file write itself is gated by the
exists-and-not-overwrite decision. -/
theorem C3_reference_append_unconditional (ow : Bool) (s : RunState) (l p sub : String)
    (h : classify l = .problemOk p sub) :
    (step ow s l).mainWrites = s.mainWrites
      ++ [MainWrite.subfileW (problemFileName s.chapter s.subchapter p sub),
          MainWrite.pagebreakW]
    ∧ ((existsFile s.problems (problemFileName s.chapter s.subchapter p sub) && !ow) = true →
        (step ow s l).problems = s.problems
        ∧ (step ow s l).notices = s.notices
            ++ [Notice.notOverwriting (problemFileName s.chapter s.subchapter p sub)])
    ∧ ((existsFile s.problems (problemFileName s.chapter s.subchapter p sub) && !ow) = false →
        (step ow s l).problems = writeFile s.problems
            (problemFileName s.chapter s.subchapter p sub) (problemContent p sub)
        ∧ (step ow s l).notices = s.notices
            ++ [Notice.writing (problemFileName s.chapter s.subchapter p sub)]) := by
  cases hex : existsFile s.problems (problemFileName s.chapter s.subchapter p sub) && !ow with
  | true =>
    rw [step_problemOk ow s h, emitProblem_eq, if_pos (by simpa using hex)]
    exact ⟨rfl, fun _ => ⟨rfl, rfl⟩, fun hfalse => by simp [hex] at hfalse⟩
  | false =>
    rw [step_problemOk ow s h, emitProblem_eq, if_neg (by simp [hex])]
    exact ⟨rfl, fun htrue => by simp [hex] at htrue, fun _ => ⟨rfl, rfl⟩⟩

theorem C3_reference_append_unconditional_witness :
    (step true (initRS []) "7 bd").mainWrites = (initRS []).mainWrites
      ++ [MainWrite.subfileW (problemFileName (initRS []).chapter (initRS []).subchapter
            "7" "bd"), MainWrite.pagebreakW] :=
  (C3_reference_append_unconditional true (initRS []) "7 bd" "7" "bd" rfl).1

/-- C4: the canonical identifier joins chapter, subchapter and problem with
dots and concatenates the letters directly; chapter 3, subchapter 1, problem
7, letters bd yield 3.1.7bd; the computation is a pure function of the
resolved identity (hence deterministic), and processing the directive 7 bd
in that state writes exactly the file 3.1.7bd.tex. -/
theorem C4_identifier_deterministic (s : RunState) (hch : s.chapter = some "3")
    (hsch : s.subchapter = some "1") :
    problemIdentifier s.chapter s.subchapter "7" "bd" = "3.1.7bd"
    ∧ problemFileName s.chapter s.subchapter "7" "bd" = "3.1.7bd.tex"
    ∧ (step true s "7 bd").problems
        = writeFile s.problems "3.1.7bd.tex" (problemContent "7" "bd") := by
  have hname : problemFileName s.chapter s.subchapter "7" "bd" = "3.1.7bd.tex" := by
    rw [hch, hsch]; rfl
  refine ⟨by rw [hch, hsch]; rfl, hname, ?_⟩
  rw [step_problemOk true s
      (show classify "7 bd" = Classified.problemOk "7" "bd" from rfl),
    emitProblem_eq, if_neg (by simp)]
  simp only []
  rw [show problemFileName s.chapter s.subchapter "7" "bd" = "3.1.7bd.tex" from hname]

theorem C4_identifier_deterministic_witness :
    problemIdentifier rs31.chapter rs31.subchapter "7" "bd" = "3.1.7bd"
    ∧ problemFileName rs31.chapter rs31.subchapter "7" "bd" = "3.1.7bd.tex"
    ∧ (step true rs31 "7 bd").problems
        = writeFile rs31.problems "3.1.7bd.tex" (problemContent "7" "bd") :=
  C4_identifier_deterministic rs31 rfl rfl

/-- C5: for letters ac the generated enumerated skeleton is exactly the list
opening, a first blank item with no preceding reset, a counter reset to 2
(the zero-based offset of c) immediately before the second blank item, and
the closing line: two blank items in total. -/
theorem C5_letters_ac_structure :
    problemStructure "ac" = [enumBegin, itemLine, setcounterLine 2, itemLine, enumEnd] := rfl

/-- C10: the letters validation accepts any string over the lowercase
alphabet regardless of order or repetition (ba and aa are valid problem
directives), and for every character sequence the loop emits a counter reset
before an item exactly when the zero-based alphabet offset of the letter
differs from the running count of items already emitted, including resets to
smaller ordinals, as the structure for ba shows. -/
theorem C10_letters_unordered_resets :
    validSub "ba" = true ∧ validSub "aa" = true
    ∧ classify "7 ba" = Classified.problemOk "7" "ba"
    ∧ classify "7 aa" = Classified.problemOk "7" "aa"
    ∧ (∀ (cs : List Char) (n : Nat),
        subLoop cs n = ((List.enumFrom n cs).map (fun ic =>
          (if ic.2.toNat - 97 ≠ ic.1 then [setcounterLine (ic.2.toNat - 97)] else [])
            ++ [itemLine])).flatten)
    ∧ problemStructure "ba"
        = [enumBegin, setcounterLine 1, itemLine, setcounterLine 0, itemLine, enumEnd] := by
  refine ⟨rfl, rfl, rfl, rfl, ?_, rfl⟩
  intro cs
  induction cs with
  | nil => intro n; rfl
  | cons c cs ih =>
    intro n
    simp only [subLoop, List.enumFrom, List.map_cons, List.flatten_cons, ih (n + 1)]
    simp [List.append_assoc]

/-- C6 counterexample: the stream with the one invalid line 1 a1 and the two
valid problem directives 2 and 2 (N = 2) produces exactly one warning naming
the invalid line and two reference entries, but only one problem file: the
two directives resolve to the same identity None.None.2, so the second is
skipped rather than producing a second file. -/
theorem C6_counterexample :
    List.countP isProblemLine ["1 a1", "2", "2"] = 2
    ∧ List.countP isMalformed ["1 a1", "2", "2"] = 1
    ∧ (main false ["T", "1 a1", "2", "2"] FS.empty).map (fun r => r.fs.problems.length)
        = some 1
    ∧ (main false ["T", "1 a1", "2", "2"] FS.empty).map RunOutput.warnings
        = some [Warning.failureWarning "1 a1"] :=
  ⟨by decide, by decide, rfl, rfl⟩

/-- C6 (amended): over an initially empty problems directory, the warnings
of a run are exactly one failure warning per malformed line naming that line
(so a stream with exactly one invalid line yields exactly one warning), the
root document receives exactly one reference entry per valid problem
directive, and, provided the generated problem identities are pairwise
distinct, exactly one problem file exists per valid problem directive. -/
theorem C6_malformed_isolation (ow : Bool) (ls : List String) :
    (processLines ow (initRS []) ls).warnings
      = (ls.filter isMalformed).map Warning.failureWarning
    ∧ (processLines ow (initRS []) ls).mainWrites.countP isSubfileW
      = ls.countP isProblemLine
    ∧ ((namesAux none none ls).Nodup →
        (processLines ow (initRS []) ls).problems.length = ls.countP isProblemLine) := by
  refine ⟨?_, ?_, ?_⟩
  · rw [processLines_warnings ow ls rfl]
    simp [initRS]
  · rw [processLines_subfile_count ls (initRS []) ow]
    simp [initRS]
  · intro hnd
    rw [processLines_fresh_length ls (initRS []) ow hnd (fun n _ => rfl)]
    simp [initRS]

theorem C6_malformed_isolation_witness :
    (processLines false (initRS []) ["1 a1", "2", "3 ab"]).problems.length
      = List.countP isProblemLine ["1 a1", "2", "3 ab"] :=
  (C6_malformed_isolation false ["1 a1", "2", "3 ab"]).2.2 (by decide)

/-- C7: with force-overwrite enabled, a second run over the filesystem left
by a first run reproduces the first run exactly: byte-identical main.tex and
problem files, and the same notices and warnings.  The well-formedness
hypothesis states that the initial directory has no duplicate file names. -/
theorem C7_idempotent_with_overwrite (input : List String) (fs0 : FS) (r1 : RunOutput)
    (hnd : (keys fs0.problems).Nodup) (h1 : main true input fs0 = some r1) :
    main true input r1.fs = some r1 := by
  cases input with
  | nil => exact Option.noConfusion h1
  | cons title rest =>
    have hmain : ∀ fs : FS, main true (title :: rest) fs =
        some { fs := { main := some (mainHeader title ++ String.join
                  ((processLines true (initRS fs.problems) rest).mainWrites.map
                    MainWrite.render) ++ "\n" ++ END_DOC),
                       problems := (processLines true (initRS fs.problems) rest).problems },
               notices := Notice.writingMain
                 :: (processLines true (initRS fs.problems) rest).notices,
               warnings := (processLines true (initRS fs.problems) rest).warnings } := by
      intro fs
      rw [main_eq_cons]
      simp
    rw [hmain] at h1
    have hr1 := Option.some.inj h1
    subst hr1
    rw [hmain]
    have hview := @viewRS_processLines
      (initRS (processLines true (initRS fs0.problems) rest).problems)
      (initRS fs0.problems) rest rfl
    simp only [viewRS, Prod.mk.injEq] at hview
    obtain ⟨_, _, _, _, _, hMW, hNot, hWarn⟩ := hview
    have hA : (processLines true (initRS fs0.problems) rest).problems
        = fsApply fs0.problems (writesList none none rest) :=
      processLines_true_problems rest (initRS fs0.problems)
    have hB : (processLines true
          (initRS (processLines true (initRS fs0.problems) rest).problems) rest).problems
        = fsApply (processLines true (initRS fs0.problems) rest).problems
            (writesList none none rest) :=
      processLines_true_problems rest _
    have hProb : (processLines true
          (initRS (processLines true (initRS fs0.problems) rest).problems) rest).problems
        = (processLines true (initRS fs0.problems) rest).problems := by
      rw [hB, hA, fsApply_idem _ hnd, ← hA]
    simp only [Option.some.injEq]
    simp [hMW, hNot, hWarn, hProb]

theorem C7_idempotent_with_overwrite_witness :
    (main true ["T", "# 1 Intro", "2 ab"] FS.empty).bind
        (fun r => main true ["T", "# 1 Intro", "2 ab"] r.fs)
      = main true ["T", "# 1 Intro", "2 ab"] FS.empty := by
  obtain ⟨r1, hr1⟩ : ∃ r, main true ["T", "# 1 Intro", "2 ab"] FS.empty = some r := ⟨_, rfl⟩
  rw [hr1, Option.some_bind]
  exact C7_idempotent_with_overwrite ["T", "# 1 Intro", "2 ab"] FS.empty r1 (by decide) hr1

/-- C8: without force-overwrite, a second run over the filesystem left by a
first run leaves every file byte-identical (the whole filesystem is
unchanged) and surfaces a not-overwriting notice for main.tex and one for
each generated problem file name, in order; the warnings are the same as on
the first run. -/
theorem C8_non_overwrite_second_run (title : String) (lines : List String) (fs0 : FS)
    (r1 : RunOutput) (h1 : main false (title :: lines) fs0 = some r1) :
    main false (title :: lines) r1.fs
      = some { fs := r1.fs,
               notices := Notice.notOverwritingMain
                 :: (namesAux none none lines).map Notice.notOverwriting,
               warnings := r1.warnings } := by
  rw [main_eq_cons] at h1
  have hr1 := Option.some.inj h1
  subst hr1
  rw [main_eq_cons]
  have hall : ∀ n ∈ namesAux none none lines,
      existsFile (processLines false (initRS fs0.problems) lines).problems n = true :=
    fun n hn => names_exist_after lines (initRS fs0.problems) false n hn
  have hprob : (processLines false
        (initRS (processLines false (initRS fs0.problems) lines).problems) lines).problems
      = (processLines false (initRS fs0.problems) lines).problems :=
    processLines_skip_problems lines _ (fun n hn => hall n hn)
  have hnot : (processLines false
        (initRS (processLines false (initRS fs0.problems) lines).problems) lines).notices
      = (namesAux none none lines).map Notice.notOverwriting := by
    have := processLines_skip_notices lines
      (initRS (processLines false (initRS fs0.problems) lines).problems)
      (fun n hn => hall n hn)
    simpa [initRS] using this
  have hwarn : (processLines false
        (initRS (processLines false (initRS fs0.problems) lines).problems) lines).warnings
      = (processLines false (initRS fs0.problems) lines).warnings := by
    rw [processLines_warnings false lines rfl, processLines_warnings false lines rfl]
    rfl
  have hXs : (if fs0.main.isSome = true then fs0.main
      else some (mainHeader title ++ String.join
        ((processLines false (initRS fs0.problems) lines).mainWrites.map
          MainWrite.render) ++ "\n" ++ END_DOC)).isSome = true := by
    cases hm : fs0.main <;> simp [hm]
  have hne : (if fs0.main.isSome = true then fs0.main
      else some (mainHeader title ++ String.join
        ((processLines false (initRS fs0.problems) lines).mainWrites.map
          MainWrite.render) ++ "\n" ++ END_DOC)) ≠ none := by
    cases hm : fs0.main <;> simp [hm]
  simp only [Option.some.injEq]
  simp [hprob, hnot, hwarn, hXs, hne]

theorem C8_non_overwrite_second_run_witness :
    (main false ["T", "2 ab"] FS.empty).bind (fun r => main false ["T", "2 ab"] r.fs)
      = (main false ["T", "2 ab"] FS.empty).map (fun r =>
          { fs := r.fs,
            notices := Notice.notOverwritingMain
              :: (namesAux none none ["2 ab"]).map Notice.notOverwriting,
            warnings := r.warnings }) := by
  obtain ⟨r1, hr1⟩ : ∃ r, main false ["T", "2 ab"] FS.empty = some r := ⟨_, rfl⟩
  rw [hr1, Option.some_bind]
  exact C8_non_overwrite_second_run "T" ["2 ab"] FS.empty r1 hr1

/-- C9: for a problem-id token other than the three markers and a letters
token over the lowercase alphabet, the explicit directive with the ###
marker and the bare directive produce identical steps: the same hierarchy
update, the same problem file write or skip, the same notices and the same
root-document appends; likewise for the letter-free forms. -/
theorem C9_explicit_bare_equivalence (t s : String)
    (ht1 : t.data ≠ []) (ht2 : ∀ c ∈ t.data, c.isWhitespace = false)
    (htm1 : t ≠ "#") (htm2 : t ≠ "##") (htm3 : t ≠ "###")
    (hs1 : s.data ≠ []) (hsv : validSub s = true) :
    (∀ (ow : Bool) (st : RunState),
      step ow st ("### " ++ t ++ " " ++ s) = step ow st (t ++ " " ++ s))
    ∧ (∀ (ow : Bool) (st : RunState), step ow st ("### " ++ t) = step ow st t) := by
  have hs2 : ∀ c ∈ s.data, c.isWhitespace = false := validSub_nonspace hsv
  have e1 : ¬ (("###" : String) = "#") := by decide
  have e2 : ¬ (("###" : String) = "##") := by decide
  have hce : classify ("### " ++ t ++ " " ++ s) = .problemOk t s := by
    unfold classify
    rw [splitMax2_hash3_two t s ht1 ht2 hs1 hs2]
    simp [e1, e2, hsv]
  have hcb : classify (t ++ " " ++ s) = .problemOk t s := by
    unfold classify
    rw [splitMax2_pair t s ht1 ht2 hs1 hs2]
    simp [htm1, htm2, htm3, hsv]
  have hce1 : classify ("### " ++ t) = .problemOk t "" := by
    unfold classify
    rw [splitMax2_hash3_one t ht1 ht2]
    simp [e1, e2]
  have hcb1 : classify t = .problemOk t "" := by
    unfold classify
    rw [splitMax2_single t ht1 ht2]
    simp [htm1, htm2, htm3]
  constructor
  · intro ow st
    rw [step_problemOk ow st hce, step_problemOk ow st hcb]
  · intro ow st
    rw [step_problemOk ow st hce1, step_problemOk ow st hcb1]

theorem C9_explicit_bare_equivalence_witness :
    step true (initRS []) ("### " ++ "5" ++ " " ++ "ab")
      = step true (initRS []) ("5" ++ " " ++ "ab") :=
  (C9_explicit_bare_equivalence "5" "ab" (by decide) (by decide) (by decide) (by decide)
    (by decide) (by decide) (by decide)).1 true (initRS [])

end Compile
